import Mathlib

/-!
Verification of the tlapack excerpt: shallow embedding of the block-reflector
application engine (larfb), the reciprocal-scale primitive (rscl), the rank-1
update (geru), the blocked-driver argument checks (ungqr/unmlq/unmrq), the
workspace-size query (ungqr_worksize) and the StarPU tile-slicing checks.

Scalars are embedded as exact rationals (`ℚ`), the real-scalar instantiation of
the templated C++ code; for real scalars the conjugate transpose coincides with
the transpose.  Complex scalars (needed by `rscl`'s complex overload) are
embedded as pairs of rationals.
-/

namespace blas

/-- `blas::Op` from include/blas/types.hpp. -/
inductive Op where
  | NoTrans
  | Trans
  | ConjTrans
  deriving DecidableEq, Repr

/-- `blas::Side` from include/blas/types.hpp. -/
inductive Side where
  | Left
  | Right
  deriving DecidableEq, Repr

/-- `blas::Uplo` from include/blas/types.hpp. -/
inductive Uplo where
  | Upper
  | Lower
  | General
  deriving DecidableEq, Repr

/-- `blas::Diag` from include/blas/types.hpp. -/
inductive Diag where
  | NonUnit
  | Unit
  deriving DecidableEq, Repr

/-- `blas::Layout` from include/blas/types.hpp. -/
inductive Layout where
  | ColMajor
  | RowMajor
  deriving DecidableEq, Repr

end blas

namespace lapack

/-- `lapack::Direction` (lapack/types.hpp). -/
inductive Direction where
  | Forward
  | Backward
  deriving DecidableEq, Repr

/-- `lapack::StoreV` (lapack/types.hpp). -/
inductive StoreV where
  | Columnwise
  | Rowwise
  deriving DecidableEq, Repr

/-- The triangular part of a square matrix that `blas::trmm` actually reads:
only the stated triangle is referenced, and with `Diag::Unit` the diagonal is
taken to be 1 without being read. -/
def triangle (uplo : blas.Uplo) (diag : blas.Diag) {k : ℕ}
    (A : Matrix (Fin k) (Fin k) ℚ) : Matrix (Fin k) (Fin k) ℚ :=
  Matrix.of fun i j =>
    match uplo with
    | blas.Uplo.Upper =>
        if i < j then A i j
        else if i = j then (match diag with
          | blas.Diag.Unit => 1
          | blas.Diag.NonUnit => A i j)
        else 0
    | blas.Uplo.Lower =>
        if j < i then A i j
        else if i = j then (match diag with
          | blas.Diag.Unit => 1
          | blas.Diag.NonUnit => A i j)
        else 0
    | blas.Uplo.General => A i j

/-- `op(A)` for a square matrix, as used by the multiply primitives.  Over the
real scalar instantiation (`ℚ`) the conjugate transpose is the transpose. -/
def opMat (t : blas.Op) {k : ℕ} (A : Matrix (Fin k) (Fin k) ℚ) :
    Matrix (Fin k) (Fin k) ℚ :=
  match t with
  | blas.Op.NoTrans => A
  | blas.Op.Trans => A.transpose
  | blas.Op.ConjTrans => A.transpose

/-- `blas::trmm` with `side = Side::Left`: `B := alpha * op(triangle(A)) * B`,
the only side used in larfb's Columnwise/Forward/Left branch. -/
def trmm (uplo : blas.Uplo) (t : blas.Op) (d : blas.Diag) (alpha : ℚ)
    {k n : ℕ} (A : Matrix (Fin k) (Fin k) ℚ) (B : Matrix (Fin k) (Fin n) ℚ) :
    Matrix (Fin k) (Fin n) ℚ :=
  alpha • (opMat t (triangle uplo d A)) * B

/-- `blas::gemm(Op::ConjTrans, Op::NoTrans, alpha, A, B, beta, C)` over real
scalars: `C := alpha * A^T * B + beta * C`. -/
def gemmCTN (alpha : ℚ) {p k n : ℕ} (A : Matrix (Fin p) (Fin k) ℚ)
    (B : Matrix (Fin p) (Fin n) ℚ) (beta : ℚ) (C : Matrix (Fin k) (Fin n) ℚ) :
    Matrix (Fin k) (Fin n) ℚ :=
  alpha • (A.transpose * B) + beta • C

/-- `blas::gemm(Op::NoTrans, Op::NoTrans, alpha, A, B, beta, C)`:
`C := alpha * A * B + beta * C`. -/
def gemmNN (alpha : ℚ) {p k n : ℕ} (A : Matrix (Fin p) (Fin k) ℚ)
    (B : Matrix (Fin k) (Fin n) ℚ) (beta : ℚ) (C : Matrix (Fin p) (Fin n) ℚ) :
    Matrix (Fin p) (Fin n) ℚ :=
  alpha • (A * B) + beta • C

/-- The computational branch of `lapack::larfb` (include/lapack/larfb.hpp,
lines 179-223) for `storev = Columnwise`, `direction = Forward`,
`side = Left`.  `C` is split into its first `k` rows `C1` and remaining `p`
rows `C2` (so `m = k + p`), and `V` into `V1` (rows `0..k`) and `V2`
(rows `k..m`).  The source guards the two gemm calls by `m > k`, i.e. `0 < p`.
Returns the final `(C1, C2, W)`. -/
def larfbFCLeft (trans : blas.Op) {k p n : ℕ}
    (V1 : Matrix (Fin k) (Fin k) ℚ) (V2 : Matrix (Fin p) (Fin k) ℚ)
    (T : Matrix (Fin k) (Fin k) ℚ)
    (C1 : Matrix (Fin k) (Fin n) ℚ) (C2 : Matrix (Fin p) (Fin n) ℚ) :
    Matrix (Fin k) (Fin n) ℚ × Matrix (Fin p) (Fin n) ℚ ×
      Matrix (Fin k) (Fin n) ℚ :=
  -- W := C1 (lacpy)
  let W0 := C1
  -- W := V1^H W : trmm(side, Lower, ConjTrans, Unit, 1, V1, W)
  let W1 := trmm blas.Uplo.Lower blas.Op.ConjTrans blas.Diag.Unit 1 V1 W0
  -- if (m > k) W := W + V2^H C2 : gemm(ConjTrans, NoTrans, 1, V2, C2, 1, W)
  let W2 := if 0 < p then gemmCTN 1 V2 C2 1 W1 else W1
  -- W := op(T) W : trmm(side, Upper, trans, NonUnit, 1, T, W)
  let W3 := trmm blas.Uplo.Upper trans blas.Diag.NonUnit 1 T W2
  -- if (m > k) C2 := C2 - V2 W : gemm(NoTrans, NoTrans, -1, V2, W, 1, C2)
  let C2' := if 0 < p then gemmNN (-1) V2 W3 1 C2 else C2
  -- W := - V1 W : trmm(side, Lower, NoTrans, Unit, -1, V1, W)
  let W4 := trmm blas.Uplo.Lower blas.Op.NoTrans blas.Diag.Unit (-1) V1 W3
  -- C1 := C1 + W
  (C1 + W4, C2', W4)

/-- The argument-check sequence of `lapack::larfb` (larfb.hpp lines 143-174),
in source order.  `isComplexV` embeds the type-level test
`is_complex<type_t<matrixV_t>>::value`.  The `access_denied` checks (error
codes -5..-8) always pass for dense matrices, whose read/write policies grant
full access, so they do not appear. -/
def larfbCheckInfo (side : blas.Side) (trans : blas.Op) (direction : Direction)
    (storeMode : StoreV) (isComplexV : Bool) : Option ℤ :=
  if ¬(side = blas.Side.Left) ∧ ¬(side = blas.Side.Right) then some (-1)
  else if ¬(trans = blas.Op.NoTrans) ∧ ¬(trans = blas.Op.ConjTrans) ∧
      (¬(trans = blas.Op.Trans) ∨ isComplexV = true) then some (-2)
  else if ¬(direction = Direction.Backward) ∧
      ¬(direction = Direction.Forward) then some (-3)
  else if ¬(storeMode = StoreV.Columnwise) ∧
      ¬(storeMode = StoreV.Rowwise) then some (-4)
  else none

/-- `lapack::larfb` materialized at `side = Left`, `direction = Forward`,
`storev = Columnwise`: argument checks (before any mutation), the quick return
`if (m <= 0 || n <= 0) return 0` (with `m = k + p`), then the computational
branch.  Returns the `int` result together with the final `(C1, C2, W)`. -/
def larfb (isComplexV : Bool) (trans : blas.Op) {k p n : ℕ}
    (V1 : Matrix (Fin k) (Fin k) ℚ) (V2 : Matrix (Fin p) (Fin k) ℚ)
    (T : Matrix (Fin k) (Fin k) ℚ)
    (C1 : Matrix (Fin k) (Fin n) ℚ) (C2 : Matrix (Fin p) (Fin n) ℚ)
    (W : Matrix (Fin k) (Fin n) ℚ) :
    ℤ × (Matrix (Fin k) (Fin n) ℚ × Matrix (Fin p) (Fin n) ℚ ×
      Matrix (Fin k) (Fin n) ℚ) :=
  match larfbCheckInfo blas.Side.Left trans Direction.Forward
      StoreV.Columnwise isComplexV with
  | some info => (info, (C1, C2, W))
  | none =>
    if k + p = 0 ∨ n = 0 then (0, (C1, C2, W))
    else (0, larfbFCLeft trans V1 V2 T C1 C2)

end lapack

namespace lapack

lemma triangle_lower_unit_eq {k : ℕ} (A : Matrix (Fin k) (Fin k) ℚ)
    (hdiag : ∀ i, A i i = 1) (hupper : ∀ i j, i < j → A i j = 0) :
    triangle blas.Uplo.Lower blas.Diag.Unit A = A := by
  ext i j
  simp only [triangle, Matrix.of_apply]
  rcases lt_trichotomy j i with h | h | h
  · rw [if_pos h]
  · subst h
    rw [if_neg (lt_irrefl j), if_pos rfl, hdiag]
  · rw [if_neg (not_lt.mpr h.le), if_neg (ne_of_lt h), hupper i j h]

lemma triangle_upper_nonunit_eq {k : ℕ} (A : Matrix (Fin k) (Fin k) ℚ)
    (hlower : ∀ i j, j < i → A i j = 0) :
    triangle blas.Uplo.Upper blas.Diag.NonUnit A = A := by
  ext i j
  simp only [triangle, Matrix.of_apply]
  rcases lt_trichotomy i j with h | h | h
  · rw [if_pos h]
  · subst h
    rw [if_neg (lt_irrefl i), if_pos rfl]
  · rw [if_neg (not_lt.mpr h.le), if_neg (ne_of_gt h), hlower i j h]

lemma mul_fin_zero {a b : ℕ} (A : Matrix (Fin a) (Fin 0) ℚ)
    (B : Matrix (Fin 0) (Fin b) ℚ) : A * B = 0 := by
  ext i j
  simp [Matrix.mul_apply]

lemma gemmCTN_if {k p n : ℕ} (V2 : Matrix (Fin p) (Fin k) ℚ)
    (C2 : Matrix (Fin p) (Fin n) ℚ) (W : Matrix (Fin k) (Fin n) ℚ) :
    (if 0 < p then gemmCTN 1 V2 C2 1 W else W) = V2.transpose * C2 + W := by
  by_cases h : 0 < p
  · simp [gemmCTN, h]
  · have hp : p = 0 := by omega
    subst hp
    rw [if_neg h, mul_fin_zero, zero_add]

lemma gemmNN_if {k p n : ℕ} (V2 : Matrix (Fin p) (Fin k) ℚ)
    (W : Matrix (Fin k) (Fin n) ℚ) (C2 : Matrix (Fin p) (Fin n) ℚ) :
    (if 0 < p then gemmNN (-1) V2 W 1 C2 else C2) = C2 - V2 * W := by
  by_cases h : 0 < p
  · simp [gemmNN, h, neg_one_smul, sub_eq_add_neg, add_comm]
  · have hp : p = 0 := by omega
    subst hp
    rw [if_neg h]
    ext i j
    exact i.elim0

lemma fromRows_sub {m₁ m₂ n : ℕ} (A₁ B₁ : Matrix (Fin m₁) (Fin n) ℚ)
    (A₂ B₂ : Matrix (Fin m₂) (Fin n) ℚ) :
    Matrix.fromRows A₁ A₂ - Matrix.fromRows B₁ B₂ =
      Matrix.fromRows (A₁ - B₁) (A₂ - B₂) := by
  ext i j
  cases i with
  | inl i => simp [Matrix.fromRows]
  | inr i => simp [Matrix.fromRows]

end lapack

namespace lapack

/-- C1: for side=Left, trans=NoTrans, direction=Forward, storage=Columnwise,
with `V = [V1; V2]` unit lower-trapezoidal (unit diagonal, zero strict upper
part in `V1`), `T` upper-triangular, `m = k + p ≥ k ≥ 1` and `n ≥ 1`, the
six-step sequence executed by larfb (copy C1 into W; W := V1^H W;
W += V2^H C2; W := T W; C2 -= V2 W; W := -V1 W; C1 += W) leaves `C = [C1; C2]`
equal to `H C` with `H = I - V T V^H` (over real scalars, `V^H = V^T`). -/
theorem larfb_block_reflector {k p n : ℕ} (hk : 1 ≤ k) (hn : 1 ≤ n)
    (V1 : Matrix (Fin k) (Fin k) ℚ) (V2 : Matrix (Fin p) (Fin k) ℚ)
    (T : Matrix (Fin k) (Fin k) ℚ)
    (C1 : Matrix (Fin k) (Fin n) ℚ) (C2 : Matrix (Fin p) (Fin n) ℚ)
    (hV1diag : ∀ i, V1 i i = 1) (hV1upper : ∀ i j, i < j → V1 i j = 0)
    (hT : ∀ i j : Fin k, j < i → T i j = 0) :
    Matrix.fromRows (larfbFCLeft blas.Op.NoTrans V1 V2 T C1 C2).1
        (larfbFCLeft blas.Op.NoTrans V1 V2 T C1 C2).2.1 =
      (1 - Matrix.fromRows V1 V2 * T * (Matrix.fromRows V1 V2).transpose) *
        Matrix.fromRows C1 C2 := by
  have htriV := triangle_lower_unit_eq V1 hV1diag hV1upper
  have htriT := triangle_upper_nonunit_eq T hT
  simp only [larfbFCLeft, trmm, opMat, htriV, htriT, one_smul, gemmCTN_if,
    gemmNN_if]
  rw [Matrix.sub_mul, Matrix.one_mul, Matrix.transpose_fromRows,
    Matrix.mul_assoc (Matrix.fromRows V1 V2 * T),
    Matrix.fromColumns_mul_fromRows, Matrix.fromRows_mul, Matrix.fromRows_mul,
    fromRows_sub, Matrix.fromRows_ext_iff]
  constructor
  · rw [neg_one_smul, Matrix.neg_mul, ← sub_eq_add_neg,
      add_comm (V2.transpose * C2),
      Matrix.mul_assoc]
  · rw [add_comm (V2.transpose * C2), Matrix.mul_assoc]

end lapack

namespace lapack

/-- Witness for C1 at k = p = n = 1, V = [1; 2], T = [3], C = [5; 7]. -/
theorem larfb_block_reflector_witness :
    (1 ≤ 1) ∧
    (∀ i : Fin 1, (!![(1:ℚ)]) i i = 1) ∧
    (∀ i j : Fin 1, i < j → (!![(1:ℚ)]) i j = 0) ∧
    (∀ i j : Fin 1, j < i → (!![(3:ℚ)]) i j = 0) ∧
    Matrix.fromRows
        (larfbFCLeft blas.Op.NoTrans !![(1:ℚ)] !![(2:ℚ)] !![(3:ℚ)]
          !![(5:ℚ)] !![(7:ℚ)]).1
        (larfbFCLeft blas.Op.NoTrans !![(1:ℚ)] !![(2:ℚ)] !![(3:ℚ)]
          !![(5:ℚ)] !![(7:ℚ)]).2.1 =
      (1 - Matrix.fromRows !![(1:ℚ)] !![(2:ℚ)] * !![(3:ℚ)] *
          (Matrix.fromRows !![(1:ℚ)] !![(2:ℚ)]).transpose) *
        Matrix.fromRows !![(5:ℚ)] !![(7:ℚ)] :=
  ⟨by decide, by decide, by decide, by decide,
    larfb_block_reflector (by decide) (by decide) _ _ _ _ _
      (by decide) (by decide) (by decide)⟩

end lapack

namespace lapack

lemma fin_zero_rows_eq {n : ℕ} (A B : Matrix (Fin 0) (Fin n) ℚ) : A = B := by
  ext i j
  exact i.elim0

/-- C6: a larfb call with trans = Op::Trans fails with error code -2 (naming
the transpose argument) whenever the element type of V is complex, and leaves
C (and W) untouched — the checks run before any mutation; plain Trans passes
the checks when the element type of V is real. -/
theorem larfb_trans_complex_rejected :
    (∀ (side : blas.Side) (direction : Direction) (storeMode : StoreV),
      larfbCheckInfo side blas.Op.Trans direction storeMode true =
        some (-2)) ∧
    (∀ (side : blas.Side) (direction : Direction) (storeMode : StoreV),
      larfbCheckInfo side blas.Op.Trans direction storeMode false = none) ∧
    (∀ {k p n : ℕ} (V1 : Matrix (Fin k) (Fin k) ℚ)
      (V2 : Matrix (Fin p) (Fin k) ℚ) (T : Matrix (Fin k) (Fin k) ℚ)
      (C1 : Matrix (Fin k) (Fin n) ℚ) (C2 : Matrix (Fin p) (Fin n) ℚ)
      (W : Matrix (Fin k) (Fin n) ℚ),
      larfb true blas.Op.Trans V1 V2 T C1 C2 W = (-2, (C1, C2, W))) := by
  refine ⟨?_, ?_, ?_⟩
  · intro side direction storeMode
    cases side <;> cases direction <;> cases storeMode <;> rfl
  · intro side direction storeMode
    cases side <;> cases direction <;> cases storeMode <;> rfl
  · intro k p n V1 V2 T C1 C2 W
    rfl

/-- C7: larfb with zero rows or zero columns in C returns 0 without writing to
C or W; with k = 0 (empty T) but m, n > 0 it returns 0 leaving C equal to its
input (the identity operator); all for any trans accepted for real scalars. -/
theorem larfb_degenerate_noop :
    (∀ {k p : ℕ} (trans : blas.Op) (V1 : Matrix (Fin k) (Fin k) ℚ)
      (V2 : Matrix (Fin p) (Fin k) ℚ) (T : Matrix (Fin k) (Fin k) ℚ)
      (C1 : Matrix (Fin k) (Fin 0) ℚ) (C2 : Matrix (Fin p) (Fin 0) ℚ)
      (W : Matrix (Fin k) (Fin 0) ℚ),
      larfb false trans V1 V2 T C1 C2 W = (0, (C1, C2, W))) ∧
    (∀ {n : ℕ} (trans : blas.Op) (V1 : Matrix (Fin 0) (Fin 0) ℚ)
      (V2 : Matrix (Fin 0) (Fin 0) ℚ) (T : Matrix (Fin 0) (Fin 0) ℚ)
      (C1 C2 W : Matrix (Fin 0) (Fin n) ℚ),
      larfb false trans V1 V2 T C1 C2 W = (0, (C1, C2, W))) ∧
    (∀ {p n : ℕ} (trans : blas.Op) (hp : 0 < p) (hn : 0 < n)
      (V1 : Matrix (Fin 0) (Fin 0) ℚ) (V2 : Matrix (Fin p) (Fin 0) ℚ)
      (T : Matrix (Fin 0) (Fin 0) ℚ) (C1 : Matrix (Fin 0) (Fin n) ℚ)
      (C2 : Matrix (Fin p) (Fin n) ℚ) (W : Matrix (Fin 0) (Fin n) ℚ),
      larfb false trans V1 V2 T C1 C2 W = (0, (C1, C2, W))) := by
  have hchk : ∀ trans : blas.Op,
      larfbCheckInfo blas.Side.Left trans Direction.Forward
        StoreV.Columnwise false = none := by
    intro trans
    cases trans <;> rfl
  refine ⟨?_, ?_, ?_⟩
  · intro k p trans V1 V2 T C1 C2 W
    simp [larfb, hchk]
  · intro n trans V1 V2 T C1 C2 W
    simp [larfb, hchk]
  · intro p n trans hp hn V1 V2 T C1 C2 W
    simp only [larfb, hchk]
    rw [if_neg (by omega)]
    simp only [larfbFCLeft, gemmNN_if, mul_fin_zero, sub_zero,
      Prod.mk.injEq]
    exact ⟨True.intro, fin_zero_rows_eq _ _, True.intro, fin_zero_rows_eq _ _⟩

/-- Witness for C7's k = 0 branch at p = n = 1 (and the hypotheses of the
other two branches are vacuous). -/
theorem larfb_degenerate_noop_witness :
    (0 < 1) ∧
    larfb false blas.Op.NoTrans (0 : Matrix (Fin 0) (Fin 0) ℚ)
        (0 : Matrix (Fin 1) (Fin 0) ℚ) (0 : Matrix (Fin 0) (Fin 0) ℚ)
        (0 : Matrix (Fin 0) (Fin 1) ℚ) !![(9:ℚ)]
        (0 : Matrix (Fin 0) (Fin 1) ℚ) =
      (0, (0, !![(9:ℚ)], 0)) :=
  ⟨by decide, larfb_degenerate_noop.2.2 blas.Op.NoTrans (by decide) (by decide)
    _ _ _ _ _ _⟩

end lapack

namespace tlapack

/-- `blas::scal` on a rational vector: `x := alpha * x`. -/
def scal (alpha : ℚ) (x : List ℚ) : List ℚ :=
  x.map fun xi => alpha * xi

/-- `tlapack::rscl`, real overload (rscl.hpp lines 18-40).  The type-trait
constants `safe_min`/`safe_max` are passed as parameters; in the library
`safe_max` is defined as the reciprocal of `safe_min`. -/
def rscl (safeMin safeMax alpha : ℚ) (x : List ℚ) : List ℚ :=
  let r := |alpha|
  if r > safeMax then scal (safeMax / alpha) (scal safeMin x)
  else if r < safeMin then scal (safeMin / alpha) (scal safeMax x)
  else scal (1 / alpha) x

/-- C4: the real `rscl` takes one of exactly three branches on `|alpha|`
(above `safe_max`, below `safe_min`, or in between) and in every branch the
combined effect is dividing each element of `x` by `alpha`, given
`safe_min * safe_max = 1` and `alpha ≠ 0`. -/
theorem rscl_three_branch_divides (safeMin safeMax alpha : ℚ) (x : List ℚ)
    (hsm : safeMin * safeMax = 1) (ha : alpha ≠ 0) :
    rscl safeMin safeMax alpha x = x.map fun xi => xi / alpha := by
  simp only [rscl, scal]
  split_ifs with h1 h2
  · rw [List.map_map]
    congr 1
    funext xi
    field_simp
    linear_combination xi * hsm
  · rw [List.map_map]
    congr 1
    funext xi
    field_simp
    linear_combination xi * hsm
  · congr 1
    funext xi
    field_simp

/-- Witness for C4 with safeMin = 1/4, safeMax = 4, alpha = 8 (first branch),
x = [2, 3]. -/
theorem rscl_three_branch_divides_witness :
    ((1:ℚ)/4) * 4 = 1 ∧ (8:ℚ) ≠ 0 ∧
    rscl (1/4) 4 8 [2, 3] = ([2, 3] : List ℚ).map (fun xi => xi / 8) :=
  ⟨by norm_num, by norm_num,
    rscl_three_branch_divides _ _ _ _ (by norm_num) (by norm_num)⟩

/-- `std::complex` over exact rationals. -/
structure CplxQ where
  re : ℚ
  im : ℚ
  deriving DecidableEq, Repr

/-- Complex multiplication. -/
def cmul (a b : CplxQ) : CplxQ :=
  CplxQ.mk (a.re * b.re - a.im * b.im) (a.re * b.im + a.im * b.re)

/-- Complex division `a / b` (the mathematical quotient, for `b ≠ 0`). -/
def cdiv (a b : CplxQ) : CplxQ :=
  CplxQ.mk ((a.re * b.re + a.im * b.im) / (b.re * b.re + b.im * b.im))
    ((a.im * b.re - a.re * b.im) / (b.re * b.re + b.im * b.im))

/-- `blas::scal` on a complex vector with a real scalar. -/
def scalR (alpha : ℚ) (x : List CplxQ) : List CplxQ :=
  x.map fun xi => CplxQ.mk (alpha * xi.re) (alpha * xi.im)

/-- `blas::scal` on a complex vector with a complex scalar. -/
def scalC (alpha : CplxQ) (x : List CplxQ) : List CplxQ :=
  x.map fun xi => cmul alpha xi

/-- The real-overload algorithm of `tlapack::rscl` applied to a complex
vector; this is the delegation target of the complex overload when
`imag(alpha) == 0` (rscl.hpp line 83). -/
def rsclRealOnComplex (safeMin safeMax alphaR : ℚ) (x : List CplxQ) :
    List CplxQ :=
  let r := |alphaR|
  if r > safeMax then scalR (safeMax / alphaR) (scalR safeMin x)
  else if r < safeMin then scalR (safeMin / alphaR) (scalR safeMax x)
  else scalR (1 / alphaR) x

/-- `tlapack::rscl`, complex overload (rscl.hpp lines 64-124). -/
def rsclComplex (safeMin safeMax : ℚ) (alpha : CplxQ) (x : List CplxQ) :
    List CplxQ :=
  let alphaR := alpha.re
  let alphaI := alpha.im
  let absR := |alphaR|
  let absI := |alphaI|
  if absI = 0 then
    -- If alpha is real, then we can use another routine.
    rsclRealOnComplex safeMin safeMax alphaR x
  else if absR = 0 then
    -- alpha has a zero real part: same rules as if alpha were real.
    if absI > safeMax then
      scalC (CplxQ.mk 0 (-safeMax / alphaI)) (scalR safeMin x)
    else if absI < safeMin then
      scalC (CplxQ.mk 0 (-safeMin / alphaI)) (scalR safeMax x)
    else scalC (CplxQ.mk 0 (-1 / alphaI)) x
  else if absR > safeMax ∨ absI > safeMax then
    -- Either real or imaginary part is too large.
    scalC (cdiv (CplxQ.mk safeMax 0) alpha) (scalR safeMin x)
  else
    -- Inverses of the real and imaginary parts of 1/alpha.
    let a := |alphaR + alphaI * (alphaI / alphaR)|
    let b := |alphaI + alphaR * (alphaR / alphaI)|
    if a > safeMax ∨ b > safeMax then
      scalC (cdiv (CplxQ.mk safeMax 0) alpha) (scalR safeMin x)
    else if a < safeMin ∨ b < safeMin then
      scalC (cdiv (CplxQ.mk safeMin 0) alpha) (scalR safeMax x)
    else scalC (cdiv (CplxQ.mk 1 0) alpha) x

/-- C5: for purely imaginary alpha (zero real part, nonzero imaginary part)
the complex `rscl` runs the real-case three-branch guarded algorithm on the
imaginary part, scaling by the purely imaginary reciprocal of alpha, and the
overall effect is `x := x / alpha` (given `safe_min * safe_max = 1`). -/
theorem rsclComplex_pure_imaginary (safeMin safeMax : ℚ) (alpha : CplxQ)
    (x : List CplxQ) (hre : alpha.re = 0) (him : alpha.im ≠ 0)
    (hsm : safeMin * safeMax = 1) :
    rsclComplex safeMin safeMax alpha x = x.map fun z => cdiv z alpha := by
  obtain ⟨aR, aI⟩ := alpha
  simp only at hre him
  subst hre
  simp only [rsclComplex, abs_zero]
  rw [if_neg (abs_ne_zero.mpr him), if_pos trivial]
  split_ifs with h1 h2
  · unfold scalC scalR
    rw [List.map_map]
    congr 1
    funext z
    simp only [cmul, cdiv, Function.comp_apply, CplxQ.mk.injEq]
    constructor
    · field_simp
      linear_combination z.im * aI ^ 2 * hsm
    · field_simp
      linear_combination z.re * aI ^ 2 * hsm
  · unfold scalC scalR
    rw [List.map_map]
    congr 1
    funext z
    simp only [cmul, cdiv, Function.comp_apply, CplxQ.mk.injEq]
    constructor
    · field_simp
      linear_combination z.im * aI ^ 2 * hsm
    · field_simp
      linear_combination z.re * aI ^ 2 * hsm
  · unfold scalC
    congr 1
    funext z
    simp only [cmul, cdiv, CplxQ.mk.injEq]
    constructor
    · field_simp
      ring
    · field_simp
      ring

/-- Witness for C5 with safeMin = 1/4, safeMax = 4, alpha = 8i (first
branch), x = [1 + 2i]. -/
theorem rsclComplex_pure_imaginary_witness :
    (CplxQ.mk 0 8).re = 0 ∧ (CplxQ.mk 0 8).im ≠ 0 ∧ ((1:ℚ)/4) * 4 = 1 ∧
    rsclComplex (1/4) 4 (CplxQ.mk 0 8) [CplxQ.mk 1 2] =
      ([CplxQ.mk 1 2] : List CplxQ).map (fun z => cdiv z (CplxQ.mk 0 8)) :=
  ⟨by norm_num, by norm_num, by norm_num,
    rsclComplex_pure_imaginary _ _ _ _ (by norm_num) (by norm_num)
      (by norm_num)⟩

end tlapack

namespace blas

/-- Which `blas_error_if` check of `blas::geru` fired.  (The `layout`,
`m < 0` and `n < 0` checks cannot fire over the enum and ℕ embeddings.) -/
inductive GeruErr where
  | incxZero
  | incyZero
  | ldaTooSmall
  deriving DecidableEq, Repr

/-- The column-major computational loops of `blas::geru` (geru.hpp lines
100-134), three stride cases.  Buffers are flat arrays `ℤ → ℚ` and
`A(i,j) = A[i + j*lda]`. -/
def geruLoops (m n : ℕ) (alpha : ℚ) (x : ℤ → ℚ) (incx : ℤ) (y : ℤ → ℚ)
    (incy : ℤ) (A : ℤ → ℚ) (lda : ℕ) : ℤ → ℚ :=
  if incx = 1 ∧ incy = 1 then
    -- unit stride
    (List.range n).foldl (fun A0 j =>
      let tmp := alpha * y j
      (List.range m).foldl (fun A1 i =>
        Function.update A1 ((i : ℤ) + (j : ℤ) * (lda : ℤ))
          (A1 ((i : ℤ) + (j : ℤ) * (lda : ℤ)) + x i * tmp)) A0) A
  else if incx = 1 then
    -- x unit stride, y non-unit stride
    ((List.range n).foldl (fun s j =>
      let tmp := alpha * y s.2
      ((List.range m).foldl (fun A1 i =>
        Function.update A1 ((i : ℤ) + (j : ℤ) * (lda : ℤ))
          (A1 ((i : ℤ) + (j : ℤ) * (lda : ℤ)) + x i * tmp)) s.1,
        s.2 + incy))
      (A, if incy > 0 then 0 else (-(n : ℤ) + 1) * incy)).1
  else
    -- x and y non-unit stride
    ((List.range n).foldl (fun s j =>
      let tmp := alpha * y s.2
      (((List.range m).foldl (fun t i =>
          (Function.update t.1 ((i : ℤ) + (j : ℤ) * (lda : ℤ))
            (t.1 ((i : ℤ) + (j : ℤ) * (lda : ℤ)) + x t.2 * tmp),
            t.2 + incx))
          (s.1, if incx > 0 then 0 else (-(m : ℤ) + 1) * incx)).1,
        s.2 + incy))
      (A, if incy > 0 then 0 else (-(n : ℤ) + 1) * incy)).1

/-- Measure for the single row-major to col-major recursion of `geru`. -/
def layoutFuel (layout : Layout) : ℕ :=
  match layout with
  | Layout.RowMajor => 1
  | Layout.ColMajor => 0

/-- `blas::geru` (geru.hpp lines 60-137): argument checks in source order,
the quick return for `m == 0 || n == 0 || alpha == zero`, and the row-major
case recursing into the col-major case with dimensions swapped and the
vectors exchanged. -/
def geru (layout : Layout) (m n : ℕ) (alpha : ℚ) (x : ℤ → ℚ) (incx : ℤ)
    (y : ℤ → ℚ) (incy : ℤ) (A : ℤ → ℚ) (lda : ℕ) :
    Except GeruErr (ℤ → ℚ) :=
  if incx = 0 then Except.error GeruErr.incxZero
  else if incy = 0 then Except.error GeruErr.incyZero
  else if layout = Layout.ColMajor ∧ lda < m then
    Except.error GeruErr.ldaTooSmall
  else if layout = Layout.RowMajor ∧ lda < n then
    Except.error GeruErr.ldaTooSmall
  else if m = 0 ∨ n = 0 ∨ alpha = 0 then Except.ok A
  else match layout with
    | Layout.RowMajor => geru Layout.ColMajor n m alpha y incy x incx A lda
    | Layout.ColMajor => Except.ok (geruLoops m n alpha x incx y incy A lda)
termination_by layoutFuel layout
decreasing_by simp [layoutFuel]

/-- Final contents of `A` after a `geru` call: a failed check throws before
any mutation, leaving the buffer as it was. -/
def geruResult (r : Except GeruErr (ℤ → ℚ)) (A : ℤ → ℚ) : ℤ → ℚ :=
  match r with
  | Except.ok A' => A'
  | Except.error _ => A

/-- C9: with a valid layout, nonzero strides and sufficient lda, `geru`
called with `alpha = 0` (or with `m = 0` or `n = 0`) returns success leaving
every element of `A` unchanged. -/
theorem geru_quick_return (layout : Layout) (m n : ℕ) (alpha : ℚ)
    (x : ℤ → ℚ) (incx : ℤ) (y : ℤ → ℚ) (incy : ℤ) (A : ℤ → ℚ) (lda : ℕ)
    (hx : incx ≠ 0) (hy : incy ≠ 0)
    (hlda : layout = Layout.ColMajor → m ≤ lda)
    (hlda' : layout = Layout.RowMajor → n ≤ lda)
    (hz : alpha = 0 ∨ m = 0 ∨ n = 0) :
    geru layout m n alpha x incx y incy A lda = Except.ok A := by
  unfold geru
  rw [if_neg hx, if_neg hy,
    if_neg (by rintro ⟨h1, h2⟩; exact absurd (hlda h1) (by omega)),
    if_neg (by rintro ⟨h1, h2⟩; exact absurd (hlda' h1) (by omega)),
    if_pos (by tauto)]

/-- Witness for C9: col-major, m = n = 1, alpha = 0. -/
theorem geru_quick_return_witness :
    (1 : ℤ) ≠ 0 ∧ ((0:ℚ) = 0 ∨ (1:ℕ) = 0 ∨ (1:ℕ) = 0) ∧
    geru Layout.ColMajor 1 1 0 (fun _ => 1) 1 (fun _ => 1) 1
        (fun _ => (5:ℚ)) 1 = Except.ok (fun _ => (5:ℚ)) :=
  ⟨by decide, by norm_num,
    geru_quick_return Layout.ColMajor 1 1 0 _ 1 _ 1 _ 1 (by decide)
      (by decide) (fun _ => by decide) (fun h => nomatch h) (by norm_num)⟩

/-- C10: `geru` with Layout::RowMajor computes exactly the same final
contents of `A` as `geru` with Layout::ColMajor called with the dimensions
swapped and the vectors exchanged (geru.hpp lines 93-98); on a failed check
both calls leave `A` untouched. -/
theorem geru_rowmajor_swap (m n : ℕ) (alpha : ℚ) (x : ℤ → ℚ) (incx : ℤ)
    (y : ℤ → ℚ) (incy : ℤ) (A : ℤ → ℚ) (lda : ℕ) :
    geruResult (geru Layout.RowMajor m n alpha x incx y incy A lda) A =
      geruResult (geru Layout.ColMajor n m alpha y incy x incx A lda) A := by
  by_cases hx : incx = 0
  · by_cases hy : incy = 0 <;> simp [geru, geruResult, hx, hy]
  · by_cases hy : incy = 0
    · simp [geru, geruResult, hx, hy]
    · by_cases hl : lda < n
      · simp [geru, geruResult, hx, hy, hl]
      · by_cases hq : m = 0 ∨ n = 0 ∨ alpha = 0
        · rcases hq with h | h | h <;> simp [geru, geruResult, hx, hy, hl, h]
        · push_neg at hq
          obtain ⟨hm, hn, ha⟩ := hq
          simp [geru, geruResult, hx, hy, hl, hm, hn, ha]

end blas

namespace tlapack

/-- The `tlapack_check` conditions of `tlapack::slice` on a StarPU tile
matrix (plugins/starpu.hpp lines 80-105 and 112-136): `mb`/`nb` are the tile
extents (`A.nblockrows()`, `A.nblockcols()`), the slice is
`[row0,row1) x [col0,col1)`.  All quantities are uint32 values; within the
valid range `row0 ≤ row1 ≤ Anrows`, `col0 ≤ col1 ≤ Ancols` natural
subtraction agrees with uint32 subtraction (when `nrows = 0` the first
disjunct already holds, so the wrapped `nrows - 1` is irrelevant). -/
def sliceChecksOk (Anrows Ancols mb nb row0 row1 col0 col1 : ℕ) : Bool :=
  let nrows := row1 - row0
  let ncols := col1 - col0
  decide (row0 % mb = 0) && decide (col0 % nb = 0) &&
    (decide (nrows % mb = 0) ||
      (decide (row1 = Anrows) && decide ((nrows - 1) % mb = 0))) &&
    (decide (ncols % nb = 0) ||
      (decide (col1 = Ancols) && decide ((ncols - 1) % nb = 0)))

/-- The acceptance condition the spec claims (spec §4.1): start boundaries on
tile multiples, and each extent either a whole number of tiles or ending
exactly at the true matrix boundary (a ragged final tile). -/
def sliceSpecOk (Anrows Ancols mb nb row0 row1 col0 col1 : ℕ) : Prop :=
  row0 % mb = 0 ∧ col0 % nb = 0 ∧
    ((row1 - row0) % mb = 0 ∨ row1 = Anrows) ∧
    ((col1 - col0) % nb = 0 ∨ col1 = Ancols)

/-- C2: on a 5-row matrix with tile row extent 3 (tile rows of 3 and 2), the
full-height slice `[0,5) x [0,3)` starts tile-aligned and ends at the true
matrix boundary, so the specified rule accepts it, but the code's condition
`(nrows % mb == 0) || (row1 == nrows(A) && (nrows - 1) % mb == 0)` rejects
it (5 % 3 ≠ 0 and 4 % 3 ≠ 0).  The spec's 2x2-grid scenario (row boundary 3
accepted, row boundary 2 rejected, on a 6x6 matrix) does hold. -/
theorem slice_ragged_boundary_bug :
    sliceSpecOk 5 3 3 3 0 5 0 3 ∧ sliceChecksOk 5 3 3 3 0 5 0 3 = false ∧
    sliceChecksOk 6 6 3 3 0 3 0 6 = true ∧
    sliceChecksOk 6 6 3 3 0 2 0 6 = false := by
  refine ⟨⟨?_, ?_, ?_, ?_⟩, ?_, ?_, ?_⟩
  · decide
  · decide
  · exact Or.inr rfl
  · exact Or.inl (by decide)
  · decide
  · decide
  · decide

/-- The up-front argument check of `tlapack::ungqr` (ungqr.hpp line 127):
`tlapack_check_false(k > n)`.  The row count `m` is not consulted. -/
def ungqrCheckOk (m n k : ℕ) : Bool :=
  !(decide (k > n))

/-- The up-front argument checks of `tlapack::unmlq` (unnamed/part_001 lines
197-201).  The third check tests `is_complex<matrixA_t>::value` on the
matrix type itself, not on its element type; a matrix type is never a
`std::complex` specialization, so that conjunct is constantly false. -/
def unmlqCheckOk (side : blas.Side) (trans : blas.Op) : Bool :=
  !(decide (side ≠ blas.Side.Left ∧ side ≠ blas.Side.Right)) &&
    !(decide (trans ≠ blas.Op.NoTrans ∧ trans ≠ blas.Op.Trans ∧
      trans ≠ blas.Op.ConjTrans)) &&
    !(decide (trans = blas.Op.Trans ∧ False))

/-- The up-front argument checks of `tlapack::unmrq` (unnamed/part_001 lines
439-443); here the complex test is on the element type `TA`. -/
def unmrqCheckOk (side : blas.Side) (trans : blas.Op)
    (isComplexTA : Bool) : Bool :=
  !(decide (side ≠ blas.Side.Left ∧ side ≠ blas.Side.Right)) &&
    !(decide (trans ≠ blas.Op.NoTrans ∧ trans ≠ blas.Op.Trans ∧
      trans ≠ blas.Op.ConjTrans)) &&
    !(decide (trans = blas.Op.Trans ∧ isComplexTA = true))

/-- C3 counterexample: ungqr with m = 2, n = 3, k = 3 passes its up-front
validation even though k > min(m,n) = 2; moreover unmlq's validation accepts
trans = Trans regardless of the element type (its complex test inspects the
matrix type). -/
theorem driver_check_counterexample :
    ungqrCheckOk 2 3 3 = true ∧ ¬(3 ≤ min 2 3) ∧
    unmlqCheckOk blas.Side.Left blas.Op.Trans = true := by
  refine ⟨by decide, by decide, by decide⟩

/-- C3 amended: ungqr validates up front exactly `k ≤ n` (not
`k ≤ min(m,n)`); unmlq validates the side and transpose enumerations with a
vacuous complex rejection, so over the enum types it accepts every
combination; unmrq validates the enumerations and additionally rejects
trans = Trans when the element type is complex.  None of the three drivers
validates `k ≤ min(m,n)`. -/
theorem driver_check_characterization :
    (∀ m n k : ℕ, ungqrCheckOk m n k = true ↔ k ≤ n) ∧
    (∀ (side : blas.Side) (trans : blas.Op),
      unmlqCheckOk side trans = true) ∧
    (∀ (side : blas.Side) (trans : blas.Op) (c : Bool),
      unmrqCheckOk side trans c = true ↔
        ¬(trans = blas.Op.Trans ∧ c = true)) := by
  refine ⟨?_, ?_, ?_⟩
  · intro m n k
    simp [ungqrCheckOk, not_lt]
  · intro side trans
    cases side <;> cases trans <;> decide
  · intro side trans c
    cases side <;> cases trans <;> cases c <;> decide

/-- `tlapack::WorkInfo`: a workspace shape (rows, cols). -/
structure WorkInfo where
  m : ℕ
  n : ℕ
  deriving DecidableEq, Repr

/-- Modelled from the spec: `WorkInfo::operator+=` is not under src/; per
spec §4.2 the requirements of two sub-algorithms needed simultaneously are
summed — the combined scratch holds both blocks side by side, with enough
rows for each and the columns summed. -/
def WorkInfo.add (a b : WorkInfo) : WorkInfo :=
  WorkInfo.mk (max a.m b.m) (a.n + b.n)

/-- Modelled from the spec: `WorkInfo::minMax` is not under src/; per spec
§4.2 scratch reused by two sub-algorithms at different times takes the
element-wise maximum of the shapes. -/
def WorkInfo.minMax (a b : WorkInfo) : WorkInfo :=
  WorkInfo.mk (max a.m b.m) (max a.n b.n)

/-- Modelled from the spec: `larfb_worksize` is not under src/; larfb.hpp
documents the workspace W as length `k*n` for side=Left and `k*m` for
side=Right, where k is the order of T and C is cRows x cCols. -/
def larfb_worksize (side : blas.Side) (k cRows cCols : ℕ) : WorkInfo :=
  match side with
  | blas.Side.Left => WorkInfo.mk k cCols
  | blas.Side.Right => WorkInfo.mk cRows k

/-- Modelled from the spec: `ung2r_worksize` is not under src/; the
unblocked generation of `aiCols` reflector columns applies `larf` from the
left to at most `aiCols - 1` remaining columns, needing a vector workspace
of that length. -/
def ung2r_worksize (aiRows aiCols : ℕ) : WorkInfo :=
  WorkInfo.mk (aiCols - 1) 1

/-- `tlapack::ungqr_worksize` (ungqr.hpp lines 44-84) over shapes:
`nb = min(opts.nb, k)`; if `nb < n`, query larfb on V = m x nb, T = nb x nb,
C = m x (n - nb) and, when the workspace element type equals the matrixT
element type (`sameT`), add an nb x nb block for T; finally combine with the
ung2r query on Ai = m x nb via `minMax`. -/
def ungqr_worksize (m n k nbOpt : ℕ) (sameT : Bool) : WorkInfo :=
  let nb := min nbOpt k
  let workinfo : WorkInfo :=
    if nb < n then
      let wi := larfb_worksize blas.Side.Left nb m (n - nb)
      if sameT then wi.add (WorkInfo.mk nb nb) else wi
    else WorkInfo.mk 0 0
  workinfo.minMax (ung2r_worksize m nb)

/-- C8: the ungqr workspace query is monotone in the problem shape: growing
(m, n) element-wise, with the same tau length k and block size, grows both
dimensions of the returned workspace shape. -/
theorem ungqr_worksize_monotone (m1 n1 m2 n2 k nbOpt : ℕ) (sameT : Bool)
    (hm : m1 ≤ m2) (hn : n1 ≤ n2) :
    (ungqr_worksize m1 n1 k nbOpt sameT).m ≤
      (ungqr_worksize m2 n2 k nbOpt sameT).m ∧
    (ungqr_worksize m1 n1 k nbOpt sameT).n ≤
      (ungqr_worksize m2 n2 k nbOpt sameT).n := by
  cases sameT <;>
    simp only [ungqr_worksize, larfb_worksize, ung2r_worksize, WorkInfo.add,
      WorkInfo.minMax, Bool.false_eq_true, if_false, if_true] <;>
    split_ifs <;> constructor <;> simp <;> omega

/-- Witness for C8 at (m1,n1) = (2,3) ≤ (m2,n2) = (4,5), k = 2, nb = 32. -/
theorem ungqr_worksize_monotone_witness :
    (2:ℕ) ≤ 4 ∧ (3:ℕ) ≤ 5 ∧
    ((ungqr_worksize 2 3 2 32 true).m ≤ (ungqr_worksize 4 5 2 32 true).m ∧
      (ungqr_worksize 2 3 2 32 true).n ≤ (ungqr_worksize 4 5 2 32 true).n) :=
  ⟨by decide, by decide,
    ungqr_worksize_monotone 2 3 4 5 2 32 true (by decide) (by decide)⟩

end tlapack
